import Mathlib

/-!
Shallow embedding of the `io-stream` crate's sans-I/O stream coroutines
(`src/io.rs`, `src/coroutines/read.rs`, `src/coroutines/write.rs`,
`src/coroutines/read-exact.rs`, `src/coroutines/read-to-end.rs`) together
with proofs about their request/response protocol.

Bytes are modelled as `Nat` (no byte arithmetic occurs anywhere in the
code).  Rust's `&mut self` methods become functions returning the next
state paired with the produced value.
-/

/-- Model of a Rust `Vec<u8>`: the byte contents plus the allocation
capacity, with the standard allocator's tight behaviour (`vec![0; n]`
allocates exactly `n`; `shrink_to` drops the capacity to the maximum of
the length and the requested lower bound, and never grows it). -/
structure RVec where
  data : List Nat
  cap : Nat
deriving DecidableEq, Repr

/-- `vec![0; n]`: a zero-filled vector of length and capacity `n`. -/
def RVec.zeroed (n : Nat) : RVec :=
  ⟨List.replicate n 0, n⟩

/-- `Vec::truncate(len)`: keeps the first `len` elements, capacity untouched. -/
def RVec.trunc (v : RVec) (len : Nat) : RVec :=
  ⟨v.data.take len, v.cap⟩

/-- `Vec::shrink_to(minCap)`: shrinks the capacity with lower bound
`minCap` (no-op when the capacity is already below the bound). -/
def RVec.shrink_to (v : RVec) (minCap : Nat) : RVec :=
  if v.cap < minCap then v else ⟨v.data, max v.data.length minCap⟩

/-- `buffer.fill(0)`: overwrite every element with `0`, keeping length
and capacity. -/
def RVec.fillZero (v : RVec) : RVec :=
  ⟨List.replicate v.data.length 0, v.cap⟩

/-- `StreamOutput` (src/io.rs): output returned by both read and write
coroutines — the buffer that was used plus the number of bytes
read/written. -/
structure StreamOutput where
  buffer : RVec
  bytes_count : Nat
deriving DecidableEq, Repr

/-- `StreamOutput::bytes`: the first `bytes_count` bytes of the buffer
(total model of `&self.buffer[..self.bytes_count]`; see
`StreamOutput.bytesP` for the bounds-checked semantics). -/
def StreamOutput.bytes (o : StreamOutput) : List Nat :=
  o.buffer.data.take o.bytes_count

/-- `StreamOutput::bytes` with Rust's slice-indexing semantics:
`&self.buffer[..self.bytes_count]` panics when
`bytes_count > buffer.len()`; the panic is modelled as `none`. -/
def StreamOutput.bytesP (o : StreamOutput) : Option (List Nat) :=
  if o.bytes_count ≤ o.buffer.data.length then
    some (o.buffer.data.take o.bytes_count)
  else
    none

deriving instance DecidableEq for Except

/-- `StreamIo` (src/io.rs): the request/response enum exchanged between
coroutines and runtimes.  Rust's `Result<StreamOutput, Vec<u8>>` is
`Except RVec StreamOutput`: `.ok` is a completed output (response),
`.error` is a buffer to be filled/drained (request). -/
inductive StreamIo where
  | Read : Except RVec StreamOutput → StreamIo
  | Write : Except RVec StreamOutput → StreamIo
deriving DecidableEq, Repr

/-- `ReadStreamError` (src/coroutines/read.rs). -/
inductive ReadStreamError where
  | InvalidArgument : String → StreamIo → ReadStreamError
deriving DecidableEq, Repr

/-- `ReadStreamResult` (src/coroutines/read.rs). -/
inductive ReadStreamResult where
  | Ok : StreamOutput → ReadStreamResult
  | Io : StreamIo → ReadStreamResult
  | Eof : ReadStreamResult
  | Err : ReadStreamError → ReadStreamResult
deriving DecidableEq, Repr

/-- `ReadStream` (src/coroutines/read.rs): I/O-free coroutine reading
bytes into a buffer. -/
structure ReadStream where
  buffer : RVec
deriving DecidableEq, Repr

/-- `ReadStream::DEFAULT_CAPACITY`. -/
def ReadStream.DEFAULT_CAPACITY : Nat := 8 * 1024

/-- `ReadStream::with_capacity`. -/
def ReadStream.with_capacity (capacity : Nat) : ReadStream :=
  ⟨RVec.zeroed capacity⟩

/-- `ReadStream::new`. -/
def ReadStream.new : ReadStream :=
  ReadStream.with_capacity ReadStream.DEFAULT_CAPACITY

/-- `ReadStream::capacity`. -/
def ReadStream.capacity (r : ReadStream) : Nat :=
  r.buffer.cap

/-- `ReadStream::truncate`: `buffer.truncate(len)` then
`buffer.shrink_to(len)`. -/
def ReadStream.truncate (r : ReadStream) (len : Nat) : ReadStream :=
  ⟨(r.buffer.trunc len).shrink_to len⟩

/-- `ReadStream::replace`: zero the given buffer and install it. -/
def ReadStream.replace (r : ReadStream) (buffer : RVec) : ReadStream :=
  ⟨buffer.fillZero⟩

/-- `ReadStream::resume`.  `None`: swap the internal buffer with a fresh
`vec![0; capacity]` and emit the previous buffer as a read request.
`Some`: validate the shape, re-emit pending requests, classify a
completed output as `Eof` (`bytes_count == 0`) or `Ok`. -/
def ReadStream.resume (r : ReadStream) (arg : Option StreamIo) :
    ReadStream × ReadStreamResult :=
  match arg with
  | none => (⟨RVec.zeroed r.buffer.cap⟩, .Io (.Read (.error r.buffer)))
  | some arg =>
    match arg with
    | .Read io =>
      match io with
      | .ok output =>
        match output.bytes_count with
        | 0 => (r, .Eof)
        | _ + 1 => (r, .Ok output)
      | .error buffer => (r, .Io (.Read (.error buffer)))
    | .Write io => (r, .Err (.InvalidArgument ("read output") (.Write io)))

/-- `WriteStreamError` (src/coroutines/write.rs). -/
inductive WriteStreamError where
  | InvalidArgument : String → StreamIo → WriteStreamError
deriving DecidableEq, Repr

/-- `WriteStreamResult` (src/coroutines/write.rs). -/
inductive WriteStreamResult where
  | Ok : StreamOutput → WriteStreamResult
  | Io : StreamIo → WriteStreamResult
  | Eof : WriteStreamResult
  | Err : WriteStreamError → WriteStreamResult
deriving DecidableEq, Repr

/-- `WriteStream` (src/coroutines/write.rs): I/O-free coroutine writing
bytes into a stream. -/
structure WriteStream where
  bytes : List Nat
deriving DecidableEq, Repr

/-- `WriteStream::new`. -/
def WriteStream.new (bytes : List Nat) : WriteStream :=
  ⟨bytes⟩

/-- `WriteStream::resume`.  `None`: drain the whole pending byte
sequence into one write request (`self.bytes.drain(..).collect()`).
`Some`: validate the shape, re-emit pending requests, classify a
completed output as `Eof` or `Ok`. -/
def WriteStream.resume (w : WriteStream) (arg : Option StreamIo) :
    WriteStream × WriteStreamResult :=
  match arg with
  | none => (⟨[]⟩, .Io (.Write (.error ⟨w.bytes, w.bytes.length⟩)))
  | some arg =>
    match arg with
    | .Write io =>
      match io with
      | .ok output =>
        match output.bytes_count with
        | 0 => (w, .Eof)
        | _ + 1 => (w, .Ok output)
      | .error bytes => (w, .Io (.Write (.error bytes)))
    | .Read io => (w, .Err (.InvalidArgument ("write output") (.Read io)))

/-- `ReadStreamExactError` (src/coroutines/read-exact.rs):
`UnexpectedEof(remaining, max, partial bytes)` or a wrapped inner read
error. -/
inductive ReadStreamExactError where
  | UnexpectedEof : Nat → Nat → List Nat → ReadStreamExactError
  | Read : ReadStreamError → ReadStreamExactError
deriving DecidableEq, Repr

/-- `ReadStreamExactResult` (src/coroutines/read-exact.rs). -/
inductive ReadStreamExactResult where
  | Ok : List Nat → ReadStreamExactResult
  | Io : StreamIo → ReadStreamExactResult
  | Err : ReadStreamExactError → ReadStreamExactResult
deriving DecidableEq, Repr

/-- `ReadStreamExact` (src/coroutines/read-exact.rs): inner read
coroutine, accumulation buffer, and the exact byte target `max`.  The
accumulation buffer's capacity is never observed, so it is a plain
list. -/
structure ReadStreamExact where
  read : ReadStream
  buffer : List Nat
  max : Nat
deriving DecidableEq, Repr

/-- `ReadStreamExact::with_capacity`: inner read machine sized to
`min capacity max`. -/
def ReadStreamExact.with_capacity (capacity max : Nat) : ReadStreamExact :=
  ⟨ReadStream.with_capacity (min capacity max), [], max⟩

/-- `ReadStreamExact::new`. -/
def ReadStreamExact.new (max : Nat) : ReadStreamExact :=
  ReadStreamExact.with_capacity ReadStream.DEFAULT_CAPACITY max

/-- `ReadStreamExact::extend`: append pre-known bytes to the
accumulator. -/
def ReadStreamExact.extend (r : ReadStreamExact) (bytes : List Nat) :
    ReadStreamExact :=
  { r with buffer := r.buffer ++ bytes }

/-- The `loop` body of `ReadStreamExact::resume`, fuel-indexed.  A
second iteration only follows a synchronous `Ok` from the inner
machine, after which the inner `resume(None)` necessarily yields `Io`,
so the loop runs at most twice per call; fuel `2` always suffices
(`ReadStreamExact.resumeGo_two_isSome`). -/
def ReadStreamExact.resumeGo :
    Nat → ReadStreamExact → Option StreamIo →
    Option (ReadStreamExact × ReadStreamExactResult)
  | 0, _, _ => none
  | fuel + 1, r, arg =>
    if r.max ≤ r.buffer.length then
      some ({ r with buffer := [] }, .Ok r.buffer)
    else
      let remaining := r.max - r.buffer.length
      let read := if remaining < r.read.capacity then r.read.truncate remaining else r.read
      match read.resume arg with
      | (read2, .Ok output) =>
        ReadStreamExact.resumeGo fuel
          ⟨read2.replace output.buffer, r.buffer ++ output.bytes, r.max⟩ none
      | (read2, .Err e) => some (⟨read2, r.buffer, r.max⟩, .Err (.Read e))
      | (read2, .Io io) => some (⟨read2, r.buffer, r.max⟩, .Io io)
      | (read2, .Eof) =>
        some (⟨read2, [], r.max⟩, .Err (.UnexpectedEof remaining r.max r.buffer))

/-- `ReadStreamExact::resume` (fuel `2` is always enough, see
`ReadStreamExact.resumeGo_two_isSome`; the default is never reached). -/
def ReadStreamExact.resume (r : ReadStreamExact) (arg : Option StreamIo) :
    ReadStreamExact × ReadStreamExactResult :=
  (ReadStreamExact.resumeGo 2 r arg).getD (r, .Io (.Read (.error ⟨[], 0⟩)))

/-- `ReadStreamToEndError` (src/coroutines/read-to-end.rs). -/
inductive ReadStreamToEndError where
  | Read : ReadStreamError → ReadStreamToEndError
deriving DecidableEq, Repr

/-- `ReadStreamToEndResult` (src/coroutines/read-to-end.rs). -/
inductive ReadStreamToEndResult where
  | Ok : List Nat → ReadStreamToEndResult
  | Io : StreamIo → ReadStreamToEndResult
  | Err : ReadStreamToEndError → ReadStreamToEndResult
deriving DecidableEq, Repr

/-- `ReadStreamToEnd` (src/coroutines/read-to-end.rs): inner read
coroutine plus an unbounded accumulation buffer. -/
structure ReadStreamToEnd where
  read : ReadStream
  buffer : List Nat
deriving DecidableEq, Repr

/-- `ReadStreamToEnd::with_capacity`. -/
def ReadStreamToEnd.with_capacity (capacity : Nat) : ReadStreamToEnd :=
  ⟨ReadStream.with_capacity capacity, []⟩

/-- `ReadStreamToEnd::new`. -/
def ReadStreamToEnd.new : ReadStreamToEnd :=
  ReadStreamToEnd.with_capacity ReadStream.DEFAULT_CAPACITY

/-- `ReadStreamToEnd::extend`. -/
def ReadStreamToEnd.extend (r : ReadStreamToEnd) (bytes : List Nat) :
    ReadStreamToEnd :=
  { r with buffer := r.buffer ++ bytes }

/-- The `loop` body of `ReadStreamToEnd::resume`, fuel-indexed; as for
`ReadStreamExact`, fuel `2` always suffices. -/
def ReadStreamToEnd.resumeGo :
    Nat → ReadStreamToEnd → Option StreamIo →
    Option (ReadStreamToEnd × ReadStreamToEndResult)
  | 0, _, _ => none
  | fuel + 1, r, arg =>
    match r.read.resume arg with
    | (read2, .Ok output) =>
      ReadStreamToEnd.resumeGo fuel
        ⟨read2.replace output.buffer, r.buffer ++ output.bytes⟩ none
    | (read2, .Err e) => some (⟨read2, r.buffer⟩, .Err (.Read e))
    | (read2, .Io io) => some (⟨read2, r.buffer⟩, .Io io)
    | (read2, .Eof) => some (⟨read2, []⟩, .Ok r.buffer)

/-- `ReadStreamToEnd::resume`. -/
def ReadStreamToEnd.resume (r : ReadStreamToEnd) (arg : Option StreamIo) :
    ReadStreamToEnd × ReadStreamToEndResult :=
  (ReadStreamToEnd.resumeGo 2 r arg).getD (r, .Io (.Read (.error ⟨[], 0⟩)))

/-- A faithful runtime driving `ReadStreamExact` against a byte source:
each read request carrying a buffer of length `k` is answered with the
next `min k L` source bytes copied into the front of that buffer and
that byte count; terminal results are returned together with the bytes
still unread.  `none` means the fuel ran out. -/
def ReadStreamExact.drive :
    Nat → List Nat → ReadStreamExact → Option StreamIo →
    Option (ReadStreamExactResult × List Nat)
  | 0, _, _, _ => none
  | fuel + 1, src, r, arg =>
    match r.resume arg with
    | (r2, .Io (.Read (.error buffer))) =>
      let n := min buffer.data.length src.length
      let output : StreamOutput := ⟨⟨src.take n ++ buffer.data.drop n, buffer.cap⟩, n⟩
      ReadStreamExact.drive fuel (src.drop n) r2 (some (.Read (.ok output)))
    | (_, res) => some (res, src)

/-- Driver feeding a `ReadStreamToEnd` one completed read response per
`resume` call while the machine keeps suspending, returning the first
non-`Io` result (or the pending request once responses run out). -/
def ReadStreamToEnd.driveResponses :
    ReadStreamToEnd → List StreamOutput → ReadStreamToEndResult
  | r, [] => (r.resume none).2
  | r, o :: os =>
    match r.resume (some (.Read (.ok o))) with
    | (r2, .Io _) => ReadStreamToEnd.driveResponses r2 os
    | (_, res) => res

/-- Full driver for `ReadStreamToEnd`: a first `resume(None)` obtains
the initial request, then the given responses are fed in order. -/
def ReadStreamToEnd.driveToEnd (r : ReadStreamToEnd)
    (resps : List StreamOutput) : ReadStreamToEndResult :=
  match r.resume none with
  | (r2, .Io _) => ReadStreamToEnd.driveResponses r2 resps
  | (_, res) => res

/-! ### Small-step facts about `ReadStream.resume` and `WriteStream.resume` -/

theorem ReadStream.resume_none_eq (r : ReadStream) :
    r.resume none = (⟨RVec.zeroed r.buffer.cap⟩, .Io (.Read (.error r.buffer))) :=
  rfl

theorem ReadStream.resume_req_eq (r : ReadStream) (buf : RVec) :
    r.resume (some (.Read (.error buf))) = (r, .Io (.Read (.error buf))) :=
  rfl

theorem ReadStream.resume_ok_zero_eq (r : ReadStream) (buf : RVec) :
    r.resume (some (.Read (.ok ⟨buf, 0⟩))) = (r, .Eof) :=
  rfl

theorem ReadStream.resume_ok_succ_eq (r : ReadStream) (buf : RVec) (m : Nat) :
    r.resume (some (.Read (.ok ⟨buf, m + 1⟩))) = (r, .Ok ⟨buf, m + 1⟩) :=
  rfl

theorem ReadStream.resume_write_eq (r : ReadStream) (io : Except RVec StreamOutput) :
    r.resume (some (.Write io)) =
      (r, .Err (.InvalidArgument ("read output") (.Write io))) :=
  rfl

/-! ### C3, C5, C6, C7, C9, C10 -/

/-- C3 counterexample: after `resume(None)` the suspended `ReadStream`
is not bufferless — it holds a fresh zero-filled buffer of length 2
(`mem::swap` with `vec![0; capacity]`), alongside the emitted request. -/
theorem readStream_suspended_buffer_counterexample :
    ((ReadStream.with_capacity 2).resume none).2 = .Io (.Read (.error ⟨[0, 0], 2⟩)) ∧
    ((ReadStream.with_capacity 2).resume none).1.buffer.data ≠ [] ∧
    ((ReadStream.with_capacity 2).resume none).1.buffer.data.length = 2 := by
  decide

/-- C3 (amended): `ReadStream::resume(None)` emits the previous internal
buffer as the read request and leaves the machine holding a fresh
zero-filled buffer of length and capacity equal to the previous
buffer's capacity (not bufferless). -/
theorem readStream_resume_none_swaps_fresh_buffer (r : ReadStream) :
    r.resume none =
      (⟨⟨List.replicate r.buffer.cap 0, r.buffer.cap⟩⟩, .Io (.Read (.error r.buffer))) :=
  rfl

/-- C5: for both `ReadStream::resume` and `WriteStream::resume`, a
completed output of the matching shape yields `Eof` when
`bytes_count == 0` and `Ok` with that exact output when
`bytes_count > 0` (the machine state is untouched either way). -/
theorem resume_completed_output_eof_or_ok (r : ReadStream) (w : WriteStream)
    (o : StreamOutput) :
    (o.bytes_count = 0 →
      r.resume (some (.Read (.ok o))) = (r, .Eof) ∧
      w.resume (some (.Write (.ok o))) = (w, .Eof)) ∧
    (0 < o.bytes_count →
      r.resume (some (.Read (.ok o))) = (r, .Ok o) ∧
      w.resume (some (.Write (.ok o))) = (w, .Ok o)) := by
  obtain ⟨buf, n⟩ := o
  cases n with
  | zero => exact ⟨fun _ => ⟨rfl, rfl⟩, fun h => by simp at h⟩
  | succ m => exact ⟨fun h => by simp at h, fun _ => ⟨rfl, rfl⟩⟩

/-- C5 witness: concrete instances of both branches. -/
theorem resume_completed_output_eof_or_ok_witness :
    (ReadStream.with_capacity 1).resume (some (.Read (.ok ⟨⟨[5], 1⟩, 0⟩))) =
      (ReadStream.with_capacity 1, .Eof) ∧
    (WriteStream.new [9]).resume (some (.Write (.ok ⟨⟨[5], 1⟩, 1⟩))) =
      (WriteStream.new [9], .Ok ⟨⟨[5], 1⟩, 1⟩) :=
  ⟨((resume_completed_output_eof_or_ok (ReadStream.with_capacity 1)
      (WriteStream.new [9]) ⟨⟨[5], 1⟩, 0⟩).1 rfl).1,
   ((resume_completed_output_eof_or_ok (ReadStream.with_capacity 1)
      (WriteStream.new [9]) ⟨⟨[5], 1⟩, 1⟩).2 (by decide)).2⟩

/-- C6: feeding a pending request back into `resume` re-emits the
identical request and leaves the machine unchanged, for `ReadStream`
with a pending read request and `WriteStream` with a pending write
request alike. -/
theorem resume_pending_request_idempotent (r : ReadStream) (w : WriteStream)
    (buf bytes : RVec) :
    r.resume (some (.Read (.error buf))) = (r, .Io (.Read (.error buf))) ∧
    w.resume (some (.Write (.error bytes))) = (w, .Io (.Write (.error bytes))) :=
  ⟨rfl, rfl⟩

/-- C7: a wrongly shaped response — any write-shaped `StreamIo` into
`ReadStream::resume`, any read-shaped one into `WriteStream::resume` —
always produces the `InvalidArgument` error carrying that argument
(hence never `Ok`, `Eof`, or `Io`). -/
theorem resume_wrong_shape_invalid_argument (r : ReadStream) (w : WriteStream)
    (io io2 : Except RVec StreamOutput) :
    r.resume (some (.Write io)) =
      (r, .Err (.InvalidArgument ("read output") (.Write io))) ∧
    w.resume (some (.Read io2)) =
      (w, .Err (.InvalidArgument ("write output") (.Read io2))) :=
  ⟨rfl, rfl⟩

/-- C9: `WriteStream::resume(None)` drains the entire pending byte
sequence into a single write request and leaves the machine empty, so a
second `resume(None)` without an intervening response emits a write
request carrying no bytes. -/
theorem writeStream_resume_none_drains_all (w : WriteStream) :
    w.resume none = (⟨[]⟩, .Io (.Write (.error ⟨w.bytes, w.bytes.length⟩))) ∧
    (w.resume none).1.resume none = (⟨[]⟩, .Io (.Write (.error ⟨[], 0⟩))) :=
  ⟨rfl, rfl⟩

/-- C10: under the invariant `bytes_count ≤ buffer.length`,
`StreamOutput::bytes` is in bounds and returns exactly the first
`bytes_count` bytes of the buffer; without it the slice index is out of
bounds and the call faults (modelled as `none`). -/
theorem streamOutput_bytes_bounds (o : StreamOutput) :
    (o.bytes_count ≤ o.buffer.data.length →
      o.bytesP = some (o.buffer.data.take o.bytes_count) ∧
      (o.buffer.data.take o.bytes_count).length = o.bytes_count) ∧
    (o.buffer.data.length < o.bytes_count → o.bytesP = none) := by
  constructor
  · intro h
    constructor
    · simp [StreamOutput.bytesP, h]
    · simp only [List.length_take]
      omega
  · intro h
    simp only [StreamOutput.bytesP, if_neg (not_le.mpr h)]

/-- C10 witness: a concrete in-bounds output and a concrete
out-of-bounds one. -/
theorem streamOutput_bytes_bounds_witness :
    (StreamOutput.mk ⟨[5, 6], 2⟩ 1).bytesP = some [5] ∧
    (StreamOutput.mk ⟨[5], 1⟩ 2).bytesP = none := by
  constructor
  · have h := (streamOutput_bytes_bounds ⟨⟨[5, 6], 2⟩, 1⟩).1 (by decide)
    simpa using h.1
  · exact (streamOutput_bytes_bounds ⟨⟨[5], 1⟩, 2⟩).2 (by decide)

/-! ### C4 -/

/-- C4 counterexample: seeding via `extend` past `max` (the repo's own
`read_exact_0` scenario) makes the accumulator exceed `max` (3 > 0),
and `resume` then returns an `Ok` payload of length 3 ≠ max = 0 while
emptying the accumulator (its length drops 3 → 0). -/
theorem readExact_accumulator_counterexample :
    ((ReadStreamExact.with_capacity 5 0).extend [1, 2, 3]).max = 0 ∧
    ((ReadStreamExact.with_capacity 5 0).extend [1, 2, 3]).buffer.length = 3 ∧
    (((ReadStreamExact.with_capacity 5 0).extend [1, 2, 3]).resume none).2 =
      .Ok [1, 2, 3] ∧
    ((((ReadStreamExact.with_capacity 5 0).extend [1, 2, 3]).resume none).1).buffer.length
      = 0 := by
  decide

/-- C4 (amended): the accumulator length is non-decreasing across every
`extend` call and across every `resume` call that leaves the machine
running (an `Io` suspension keeps or grows it, a wrapped inner-read
error keeps it intact); a `resume` returning `Ok` yields the entire
accumulated buffer — the previous accumulator itself, or that
accumulator extended by the bytes of this call's completed response —
of length at least `max`, possibly more when `extend` over-seeded, and
empties the machine, as does the `UnexpectedEof` terminal error;
whenever the accumulated length is at least `max`, `resume` immediately
returns `Ok` with the accumulator. -/
theorem readExact_accumulator_invariant (r : ReadStreamExact)
    (arg : Option StreamIo) (bs : List Nat) :
    (r.extend bs).buffer.length = r.buffer.length + bs.length ∧
    (∀ io, (r.resume arg).2 = .Io io →
      r.buffer.length ≤ (r.resume arg).1.buffer.length) ∧
    (∀ e, (r.resume arg).2 = .Err (.Read e) → (r.resume arg).1.buffer = r.buffer) ∧
    (∀ rem mxv pb, (r.resume arg).2 = .Err (.UnexpectedEof rem mxv pb) →
      (r.resume arg).1.buffer = []) ∧
    (∀ p, (r.resume arg).2 = .Ok p →
      r.max ≤ p.length ∧ r.buffer.length ≤ p.length ∧ (r.resume arg).1.buffer = [] ∧
      (p = r.buffer ∨ ∃ o, arg = some (.Read (.ok o)) ∧ 0 < o.bytes_count ∧
        p = r.buffer ++ o.bytes)) ∧
    (r.max ≤ r.buffer.length → r.resume arg = ({ r with buffer := [] }, .Ok r.buffer)) := by
  refine ⟨by simp [ReadStreamExact.extend], ?_⟩
  by_cases hdone : r.max ≤ r.buffer.length
  · have hres : r.resume arg = ({ r with buffer := [] }, .Ok r.buffer) := by
      simp [ReadStreamExact.resume, ReadStreamExact.resumeGo, hdone]
    rw [hres]
    refine ⟨fun io h => by simp at h, fun e h => by simp at h,
      fun rem mxv pb h => by simp at h, ?_, fun _ => rfl⟩
    intro p hp
    obtain rfl : r.buffer = p := by simpa using hp
    exact ⟨hdone, Nat.le_refl _, rfl, Or.inl rfl⟩
  · have hchar :
        (r.buffer.length ≤ (r.resume arg).1.buffer.length ∧
          ∃ io, (r.resume arg).2 = .Io io) ∨
        ((r.resume arg).1.buffer = r.buffer ∧
          ∃ e, (r.resume arg).2 = .Err (.Read e)) ∨
        ((r.resume arg).1.buffer = [] ∧
          ∃ rem pb, (r.resume arg).2 = .Err (.UnexpectedEof rem r.max pb)) ∨
        (∃ p, r.max ≤ p.length ∧ r.buffer.length ≤ p.length ∧
          (r.resume arg).1.buffer = [] ∧ (r.resume arg).2 = .Ok p ∧
          ∃ o, arg = some (.Read (.ok o)) ∧ 0 < o.bytes_count ∧
            p = r.buffer ++ o.bytes) := by
      cases arg with
      | none =>
        have hres : ∃ rd io, r.resume none = (⟨rd, r.buffer, r.max⟩, .Io io) := by
          simp only [ReadStreamExact.resume, ReadStreamExact.resumeGo, if_neg hdone,
            ReadStream.resume_none_eq, Option.getD_some]
          exact ⟨_, _, rfl⟩
        obtain ⟨rd, io, hres⟩ := hres
        exact Or.inl ⟨by rw [hres], io, by rw [hres]⟩
      | some io =>
        cases io with
        | Write wio =>
          have hres : ∃ rd e, r.resume (some (.Write wio)) =
              (⟨rd, r.buffer, r.max⟩, .Err (.Read e)) := by
            simp only [ReadStreamExact.resume, ReadStreamExact.resumeGo, if_neg hdone,
              ReadStream.resume_write_eq, Option.getD_some]
            exact ⟨_, _, rfl⟩
          obtain ⟨rd, e, hres⟩ := hres
          exact Or.inr (Or.inl ⟨by rw [hres], e, by rw [hres]⟩)
        | Read rio =>
          cases rio with
          | error buf =>
            have hres : ∃ rd io, r.resume (some (.Read (.error buf))) =
                (⟨rd, r.buffer, r.max⟩, .Io io) := by
              simp only [ReadStreamExact.resume, ReadStreamExact.resumeGo, if_neg hdone,
                ReadStream.resume_req_eq, Option.getD_some]
              exact ⟨_, _, rfl⟩
            obtain ⟨rd, io, hres⟩ := hres
            exact Or.inl ⟨by rw [hres], io, by rw [hres]⟩
          | ok o =>
            obtain ⟨buf, n⟩ := o
            cases n with
            | zero =>
              have hres : ∃ rd rem, r.resume (some (.Read (.ok ⟨buf, 0⟩))) =
                  (⟨rd, [], r.max⟩, .Err (.UnexpectedEof rem r.max r.buffer)) := by
                simp only [ReadStreamExact.resume, ReadStreamExact.resumeGo, if_neg hdone,
                  ReadStream.resume_ok_zero_eq, Option.getD_some]
                exact ⟨_, _, rfl⟩
              obtain ⟨rd, rem, hres⟩ := hres
              exact Or.inr (Or.inr (Or.inl ⟨by rw [hres], rem, r.buffer, by rw [hres]⟩))
            | succ m =>
              by_cases h2 : r.max ≤ (r.buffer ++ buf.data.take (m + 1)).length
              · have hres : ∃ rd, r.resume (some (.Read (.ok ⟨buf, m + 1⟩))) =
                    (⟨rd, [], r.max⟩, .Ok (r.buffer ++ buf.data.take (m + 1))) := by
                  simp only [ReadStreamExact.resume, ReadStreamExact.resumeGo,
                    if_neg hdone, ReadStream.resume_ok_succ_eq, StreamOutput.bytes,
                    if_pos h2, Option.getD_some]
                  exact ⟨_, rfl⟩
                obtain ⟨rd, hres⟩ := hres
                exact Or.inr (Or.inr (Or.inr ⟨r.buffer ++ buf.data.take (m + 1), h2,
                  by simp, by rw [hres], by rw [hres],
                  ⟨buf, m + 1⟩, rfl, by simp, rfl⟩))
              · have hres : ∃ rd io, r.resume (some (.Read (.ok ⟨buf, m + 1⟩))) =
                    (⟨rd, r.buffer ++ buf.data.take (m + 1), r.max⟩, .Io io) := by
                  simp only [ReadStreamExact.resume, ReadStreamExact.resumeGo,
                    if_neg hdone, ReadStream.resume_ok_succ_eq, StreamOutput.bytes,
                    if_neg h2, ReadStream.resume_none_eq, Option.getD_some]
                  exact ⟨_, _, rfl⟩
                obtain ⟨rd, io, hres⟩ := hres
                exact Or.inl ⟨by rw [hres]; simp, io, by rw [hres]⟩
    refine ⟨?_, ?_, ?_, ?_, fun h => absurd h hdone⟩
    · intro io h
      rcases hchar with ⟨hle, _⟩ | ⟨_, e, he⟩ | ⟨_, rem, pb, he⟩ | ⟨p, _, _, _, he, _⟩
      · exact hle
      · rw [h] at he; simp at he
      · rw [h] at he; simp at he
      · rw [h] at he; simp at he
    · intro e h
      rcases hchar with ⟨_, io, he⟩ | ⟨hb, e2, he⟩ | ⟨hb, rem, pb, he⟩ | ⟨p, _, _, _, he, _⟩
      · rw [h] at he; simp at he
      · exact hb
      · rw [h] at he; simp at he
      · rw [h] at he; simp at he
    · intro rem mxv pb h
      rcases hchar with ⟨_, io, he⟩ | ⟨hb, e2, he⟩ | ⟨hb, rem2, pb2, he⟩ | ⟨p, _, _, _, he, _⟩
      · rw [h] at he; simp at he
      · rw [h] at he; simp at he
      · exact hb
      · rw [h] at he; simp at he
    · intro p hp
      rcases hchar with ⟨_, io, he⟩ | ⟨_, e2, he⟩ | ⟨_, rem, pb, he⟩ |
        ⟨q, hq1, hq2, hb, he, o, harg, hoc, hpo⟩
      · rw [hp] at he; simp at he
      · rw [hp] at he; simp at he
      · rw [hp] at he; simp at he
      · rw [hp] at he
        obtain rfl : p = q := by simpa using he
        exact ⟨hq1, hq2, hb, Or.inr ⟨o, harg, hoc, hpo⟩⟩

/-- C4 witness: a machine whose accumulator already holds `max` bytes
returns them as `Ok` at once. -/
theorem readExact_accumulator_invariant_witness :
    ((ReadStreamExact.with_capacity 4 2).extend [8, 9]).resume none =
      (⟨ReadStream.with_capacity 2, [], 2⟩, .Ok [8, 9]) := by
  have h := (readExact_accumulator_invariant
    ((ReadStreamExact.with_capacity 4 2).extend [8, 9]) none []).2.2.2.2.2 (by decide)
  simpa using h

/-! ### Canonical-state lemmas for driving `ReadStreamExact` -/


theorem ReadStream.truncate_zeroed (m len : Nat) :
    (ReadStream.mk (RVec.zeroed m)).truncate len = ⟨RVec.zeroed (min len m)⟩ := by
  by_cases h : m < len
  · simp [ReadStream.truncate, RVec.trunc, RVec.shrink_to, RVec.zeroed,
      List.take_replicate, if_pos h, Nat.min_eq_right h.le]
  · push_neg at h
    simp [ReadStream.truncate, RVec.trunc, RVec.shrink_to, RVec.zeroed,
      List.take_replicate, Nat.min_eq_left h, if_neg (by omega : ¬ m < len)]

theorem readExact_resume_none_canonical (m : Nat) (acc : List Nat) (mx : Nat)
    (hacc : acc.length < mx) :
    (ReadStreamExact.mk ⟨RVec.zeroed m⟩ acc mx).resume none =
      (⟨⟨RVec.zeroed (min m (mx - acc.length))⟩, acc, mx⟩,
        .Io (.Read (.error (RVec.zeroed (min m (mx - acc.length)))))) := by
  have hnd : ¬ mx ≤ acc.length := by omega
  by_cases hlt : mx - acc.length < m
  · simp only [ReadStreamExact.resume, ReadStreamExact.resumeGo, if_neg hnd,
      ReadStream.capacity, RVec.zeroed, if_pos hlt]
    rw [show (ReadStream.mk ⟨List.replicate m 0, m⟩) = ⟨RVec.zeroed m⟩ from rfl,
      ReadStream.truncate_zeroed, ReadStream.resume_none_eq]
    have hm : min m (mx - acc.length) = mx - acc.length := by omega
    simp [RVec.zeroed, hm]
    omega
  · push_neg at hlt
    simp only [ReadStreamExact.resume, ReadStreamExact.resumeGo, if_neg hnd,
      ReadStream.capacity, RVec.zeroed, if_neg (by omega : ¬ mx - acc.length < m)]
    rw [show (ReadStream.mk ⟨List.replicate m 0, m⟩) = ⟨RVec.zeroed m⟩ from rfl,
      ReadStream.resume_none_eq]
    have hm : min m (mx - acc.length) = m := by omega
    simp [RVec.zeroed, hm]

theorem readExact_resume_eofResp_canonical (k mx : Nat) (buf : RVec) (acc : List Nat)
    (hacc : acc.length < mx) (hk : k ≤ mx - acc.length) :
    (ReadStreamExact.mk ⟨RVec.zeroed k⟩ acc mx).resume (some (.Read (.ok ⟨buf, 0⟩))) =
      (⟨⟨RVec.zeroed k⟩, [], mx⟩, .Err (.UnexpectedEof (mx - acc.length) mx acc)) := by
  simp only [ReadStreamExact.resume, ReadStreamExact.resumeGo,
    if_neg (by omega : ¬ mx ≤ acc.length), ReadStream.capacity, RVec.zeroed,
    if_neg (by omega : ¬ mx - acc.length < k),
    ReadStream.resume_ok_zero_eq, Option.getD_some]

theorem readExact_resume_ok_canonical (k n mx : Nat) (data acc : List Nat)
    (hd : data.length = k) (hn : 0 < n) (hnk : n ≤ k) (hk : k ≤ mx - acc.length) :
    (ReadStreamExact.mk ⟨RVec.zeroed k⟩ acc mx).resume
        (some (.Read (.ok ⟨⟨data, k⟩, n⟩))) =
      (if mx ≤ acc.length + n then
        (⟨⟨RVec.zeroed k⟩, [], mx⟩, .Ok (acc ++ data.take n))
      else
        (⟨⟨RVec.zeroed (min k (mx - (acc.length + n)))⟩, acc ++ data.take n, mx⟩,
          .Io (.Read (.error (RVec.zeroed (min k (mx - (acc.length + n)))))))) := by
  obtain ⟨m, rfl⟩ : ∃ m, n = m + 1 := ⟨n - 1, by omega⟩
  have hlen : (data.take (m + 1)).length = m + 1 := by
    rw [List.length_take]; omega
  by_cases hfin : mx ≤ acc.length + (m + 1)
  · rw [if_pos hfin]
    simp only [ReadStreamExact.resume, ReadStreamExact.resumeGo,
      if_neg (by omega : ¬ mx ≤ acc.length), ReadStream.capacity, RVec.zeroed,
      if_neg (by omega : ¬ mx - acc.length < k),
      ReadStream.resume_ok_succ_eq, ReadStream.replace, RVec.fillZero,
      StreamOutput.bytes, hd, List.length_append, hlen,
      if_pos (show mx ≤ acc.length + (m + 1) from hfin), Option.getD_some]
  · rw [if_neg hfin]
    by_cases hlt : mx - (acc.length + (m + 1)) < k
    · simp only [ReadStreamExact.resume, ReadStreamExact.resumeGo,
        if_neg (by omega : ¬ mx ≤ acc.length), ReadStream.capacity, RVec.zeroed,
        if_neg (by omega : ¬ mx - acc.length < k),
        ReadStream.resume_ok_succ_eq, ReadStream.replace, RVec.fillZero,
        StreamOutput.bytes, hd, List.length_append, hlen,
        if_neg (show ¬ mx ≤ acc.length + (m + 1) from hfin), Option.getD_some]
      rw [show (ReadStream.mk ⟨List.replicate k 0, k⟩) = ⟨RVec.zeroed k⟩ from rfl]
      rw [if_pos hlt, ReadStream.truncate_zeroed, ReadStream.resume_none_eq]
      have hm : min (mx - (acc.length + (m + 1))) k = mx - (acc.length + (m + 1)) := by omega
      have hm2 : min k (mx - (acc.length + (m + 1))) = mx - (acc.length + (m + 1)) := by omega
      simp [RVec.zeroed, hm, hm2]
    · simp only [ReadStreamExact.resume, ReadStreamExact.resumeGo,
        if_neg (by omega : ¬ mx ≤ acc.length), ReadStream.capacity, RVec.zeroed,
        if_neg (by omega : ¬ mx - acc.length < k),
        ReadStream.resume_ok_succ_eq, ReadStream.replace, RVec.fillZero,
        StreamOutput.bytes, hd, List.length_append, hlen,
        if_neg (show ¬ mx ≤ acc.length + (m + 1) from hfin), Option.getD_some]
      rw [show (ReadStream.mk ⟨List.replicate k 0, k⟩) = ⟨RVec.zeroed k⟩ from rfl]
      rw [if_neg hlt, ReadStream.resume_none_eq]
      have hm2 : min k (mx - (acc.length + (m + 1))) = k := by omega
      simp [RVec.zeroed, hm2]

theorem RVec.length_zeroed_data (n : Nat) : (RVec.zeroed n).data.length = n := by
  simp [RVec.zeroed]

theorem RVec.zeroed_cap (n : Nat) : (RVec.zeroed n).cap = n := rfl

theorem RVec.zeroed_data_drop (n m : Nat) :
    (RVec.zeroed n).data.drop m = List.replicate (n - m) 0 := by
  simp [RVec.zeroed, List.drop_replicate]

theorem ReadStreamExact.drive_succ (fuel : Nat) (src : List Nat)
    (r : ReadStreamExact) (arg : Option StreamIo) :
    ReadStreamExact.drive (fuel + 1) src r arg =
      (match r.resume arg with
      | (r2, .Io (.Read (.error buffer))) =>
        ReadStreamExact.drive fuel (src.drop (min buffer.data.length src.length)) r2
          (some (.Read (.ok ⟨⟨src.take (min buffer.data.length src.length) ++
            buffer.data.drop (min buffer.data.length src.length), buffer.cap⟩,
            min buffer.data.length src.length⟩)))
      | (_, res) => some (res, src)) := rfl

theorem readExact_drive_response (rem : Nat) :
    ∀ fuel src acc data k n mx, data.length = k → 0 < n → n ≤ k →
      k ≤ mx - acc.length → rem = mx - (acc.length + n) → rem + 2 ≤ fuel →
      ReadStreamExact.drive fuel src ⟨⟨RVec.zeroed k⟩, acc, mx⟩
          (some (.Read (.ok ⟨⟨data, k⟩, n⟩))) =
        (if rem ≤ src.length then
          some (.Ok (acc ++ data.take n ++ src.take rem), src.drop rem)
        else
          some (.Err (.UnexpectedEof (rem - src.length) mx (acc ++ data.take n ++ src)),
            [])) := by
  induction rem using Nat.strong_induction_on with
  | _ rem ih =>
    intro fuel src acc data k n mx hd hn hnk hk hrem hfuel
    obtain ⟨f, rfl⟩ : ∃ f, fuel = f + 1 := ⟨fuel - 1, by omega⟩
    have hlen : (data.take n).length = n := by rw [List.length_take]; omega
    have hacc2 : (acc ++ data.take n).length = acc.length + n := by
      rw [List.length_append, hlen]
    simp only [ReadStreamExact.drive]
    rw [readExact_resume_ok_canonical k n mx data acc hd hn hnk hk]
    by_cases hrem0 : rem = 0
    · subst hrem0
      rw [if_pos (by omega : mx ≤ acc.length + n)]
      simp
    · rw [if_neg (by omega : ¬ mx ≤ acc.length + n)]
      simp only [RVec.length_zeroed_data, RVec.zeroed_cap, RVec.zeroed_data_drop]
      by_cases hs : src = []
      · subst hs
        simp only [List.length_nil, Nat.min_zero, List.take_nil, List.nil_append,
          Nat.sub_zero, List.drop_nil]
        obtain ⟨f2, rfl⟩ : ∃ f2, f = f2 + 1 := ⟨f - 1, by omega⟩
        simp only [ReadStreamExact.drive]
        rw [readExact_resume_eofResp_canonical _ mx _ _ (by omega) (by rw [hacc2]; omega)]
        rw [if_neg (by simp; omega)]
        simp [hacc2]
        omega
      · have hslen : 0 < src.length := List.length_pos.mpr hs
        rw [← hrem]
        have hkpos : 0 < k := by omega
        have hrpos : 0 < rem := by omega
        have hn2 : 0 < k ⊓ rem ⊓ src.length := by omega
        have hn2src : k ⊓ rem ⊓ src.length ≤ src.length := by omega
        have hn2rem : k ⊓ rem ⊓ src.length ≤ rem := by omega
        have hd2 : (List.take (k ⊓ rem ⊓ src.length) src ++
            List.replicate (k ⊓ rem - k ⊓ rem ⊓ src.length) 0).length = k ⊓ rem := by
          rw [List.length_append, List.length_take, List.length_replicate]
          omega
        rw [ih (rem - k ⊓ rem ⊓ src.length) (by omega) f
          (src.drop (k ⊓ rem ⊓ src.length)) (acc ++ List.take n data)
          (List.take (k ⊓ rem ⊓ src.length) src ++
            List.replicate (k ⊓ rem - k ⊓ rem ⊓ src.length) 0)
          (k ⊓ rem) (k ⊓ rem ⊓ src.length) mx hd2 hn2 (by omega)
          (by rw [hacc2]; omega) (by rw [hacc2]; omega) (by omega)]
        have htk : (List.take (k ⊓ rem ⊓ src.length) src ++
            List.replicate (k ⊓ rem - k ⊓ rem ⊓ src.length) 0).take (k ⊓ rem ⊓ src.length) =
            List.take (k ⊓ rem ⊓ src.length) src := by
          rw [List.take_append_of_le_length (by rw [List.length_take]; omega),
            List.take_take]
          congr 1
          omega
        rw [List.length_drop]
        by_cases hcase : rem ≤ src.length
        · rw [if_pos (by omega), if_pos hcase]
          have hjoin : List.take (k ⊓ rem ⊓ src.length) src ++
              (src.drop (k ⊓ rem ⊓ src.length)).take (rem - k ⊓ rem ⊓ src.length) =
              List.take rem src := by
            rw [← List.take_add]
            congr 1
            omega
          have hdrop : (src.drop (k ⊓ rem ⊓ src.length)).drop
              (rem - k ⊓ rem ⊓ src.length) = src.drop rem := by
            rw [List.drop_drop]
            congr 1
            omega
          rw [htk, hdrop]
          simp only [List.append_assoc, hjoin]
        · rw [if_neg (by omega), if_neg hcase]
          have har : rem - k ⊓ rem ⊓ src.length - (src.length - k ⊓ rem ⊓ src.length) =
              rem - src.length := by omega
          rw [htk, har]
          simp only [List.append_assoc, List.take_append_drop]

/-- C1: for every capacity `c ≥ 1`, target `mx`, and source of length
`L ≥ mx`, driving `ReadStreamExact::with_capacity(c, mx)` to termination
against a faithful runtime yields `Ok` with exactly the first `mx`
source bytes, leaving `L − mx` bytes unread — the logical result does
not depend on `c`. -/
theorem readExact_drive_success (c mx : Nat) (src : List Nat)
    (hc : 0 < c) (h : mx ≤ src.length) :
    ReadStreamExact.drive (mx + 3) src (ReadStreamExact.with_capacity c mx) none =
      some (.Ok (src.take mx), src.drop mx) := by
  cases Nat.eq_zero_or_pos mx with
  | inl h0 =>
    subst h0
    simp [ReadStreamExact.drive, ReadStreamExact.resume, ReadStreamExact.resumeGo,
      ReadStreamExact.with_capacity, ReadStream.with_capacity]
  | inr hpos =>
    rw [show ReadStreamExact.with_capacity c mx =
      ⟨⟨RVec.zeroed (min c mx)⟩, [], mx⟩ from rfl]
    rw [show mx + 3 = (mx + 2) + 1 from rfl, ReadStreamExact.drive_succ]
    rw [readExact_resume_none_canonical (min c mx) [] mx (by simpa using hpos)]
    simp only [List.length_nil, Nat.sub_zero, RVec.length_zeroed_data, RVec.zeroed_cap,
      RVec.zeroed_data_drop]
    rw [show min (min c mx) mx = min c mx from by omega,
      show min (min c mx) src.length = min c mx from by omega,
      Nat.sub_self, List.replicate, List.append_nil]
    rw [readExact_drive_response (mx - min c mx) (mx + 2) (src.drop (min c mx)) []
      (src.take (min c mx)) (min c mx) (min c mx) mx
      (by rw [List.length_take]; omega) (by omega) (Nat.le_refl _)
      (by simp) (by simp) (by omega)]
    have hj1 : (src.take (min c mx)).take (min c mx) = src.take (min c mx) := by
      rw [List.take_take, Nat.min_self]
    have hj2 : src.take (min c mx) ++ (src.drop (min c mx)).take (mx - min c mx) =
        src.take mx := by
      rw [← List.take_add]
      congr 1
      omega
    have hj3 : (src.drop (min c mx)).drop (mx - min c mx) = src.drop mx := by
      rw [List.drop_drop]
      congr 1
      omega
    rw [List.length_drop, if_pos (by omega), hj1, List.nil_append, hj2, hj3]

/-- C2 (amended): for every capacity `c ≥ 1`, target `mx`, and source of
length `L < mx`, driving `ReadStreamExact::with_capacity(c, mx)` to
termination against a faithful runtime fails with
`UnexpectedEof(mx − L, mx, first L bytes)`: the first field is the
deficit `mx − L` (the bytes still missing), not `L`. -/
theorem readExact_drive_unexpectedEof (c mx : Nat) (src : List Nat)
    (hc : 0 < c) (h : src.length < mx) :
    ReadStreamExact.drive (mx + 3) src (ReadStreamExact.with_capacity c mx) none =
      some (.Err (.UnexpectedEof (mx - src.length) mx src), []) := by
  have hpos : 0 < mx := by omega
  rw [show ReadStreamExact.with_capacity c mx =
    ⟨⟨RVec.zeroed (min c mx)⟩, [], mx⟩ from rfl]
  rw [show mx + 3 = (mx + 2) + 1 from rfl, ReadStreamExact.drive_succ]
  rw [readExact_resume_none_canonical (min c mx) [] mx (by simpa using hpos)]
  simp only [List.length_nil, Nat.sub_zero, RVec.length_zeroed_data, RVec.zeroed_cap,
    RVec.zeroed_data_drop]
  rw [show min (min c mx) mx = min c mx from by omega]
  by_cases hs : src = []
  · subst hs
    simp only [List.length_nil, Nat.min_zero, List.take_nil, List.nil_append,
      Nat.sub_zero, List.drop_nil]
    rw [show mx + 2 = (mx + 1) + 1 from rfl, ReadStreamExact.drive_succ]
    rw [readExact_resume_eofResp_canonical (min c mx) mx _ [] (by simpa using hpos)
      (by simp)]
    simp
  · have hslen : 0 < src.length := List.length_pos.mpr hs
    rw [readExact_drive_response (mx - min (min c mx) src.length) (mx + 2)
      (src.drop (min (min c mx) src.length)) []
      (src.take (min (min c mx) src.length) ++
        List.replicate (min c mx - min (min c mx) src.length) 0)
      (min c mx) (min (min c mx) src.length) mx
      (by rw [List.length_append, List.length_take, List.length_replicate]; omega)
      (by omega) (by omega) (by simp) (by simp) (by omega)]
    have htk : (src.take (min (min c mx) src.length) ++
        List.replicate (min c mx - min (min c mx) src.length) 0).take
          (min (min c mx) src.length) = src.take (min (min c mx) src.length) := by
      rw [List.take_append_of_le_length (by rw [List.length_take]; omega), List.take_take]
      congr 1
      omega
    rw [List.length_drop, if_neg (by omega), htk]
    rw [show mx - min (min c mx) src.length - (src.length - min (min c mx) src.length) =
      mx - src.length from by omega]
    simp only [List.nil_append, List.take_append_drop]

/-- C1 witness: `with_capacity(5, 4)` and `with_capacity(3, 4)` against
the six-byte source `"abcdef"` both yield `"abcd"`, leaving `"ef"`. -/
theorem readExact_drive_success_witness :
    ReadStreamExact.drive 7 [97, 98, 99, 100, 101, 102]
        (ReadStreamExact.with_capacity 5 4) none =
      some (.Ok [97, 98, 99, 100], [101, 102]) ∧
    ReadStreamExact.drive 7 [97, 98, 99, 100, 101, 102]
        (ReadStreamExact.with_capacity 3 4) none =
      some (.Ok [97, 98, 99, 100], [101, 102]) := by
  constructor
  · rw [show (7 : Nat) = 4 + 3 from rfl,
      readExact_drive_success 5 4 [97, 98, 99, 100, 101, 102] (by decide) (by decide)]
    rfl
  · rw [show (7 : Nat) = 4 + 3 from rfl,
      readExact_drive_success 3 4 [97, 98, 99, 100, 101, 102] (by decide) (by decide)]
    rfl

/-- C2 counterexample: a one-byte source against `max = 3` fails with
`UnexpectedEof(2, 3, [7])` — the first field is the deficit
`max − L = 2`, not `L = 1` as the claim states. -/
theorem readExact_eof_deficit_counterexample :
    ReadStreamExact.drive 6 [7] (ReadStreamExact.with_capacity 4 3) none =
      some (.Err (.UnexpectedEof 2 3 [7]), []) ∧
    ReadStreamExact.drive 6 [7] (ReadStreamExact.with_capacity 4 3) none ≠
      some (.Err (.UnexpectedEof 1 3 [7]), []) := by
  decide

/-- C2 witness: the amended statement evaluated at the counterexample
input. -/
theorem readExact_drive_unexpectedEof_witness :
    ReadStreamExact.drive 6 [7] (ReadStreamExact.with_capacity 4 3) none =
      some (.Err (.UnexpectedEof 2 3 [7]), []) := by
  rw [show (6 : Nat) = 3 + 3 from rfl,
    readExact_drive_unexpectedEof 4 3 [7] (by decide) (by decide)]
  rfl

/-! ### C8: driving ReadStreamToEnd -/

theorem readToEnd_resume_ok_succ (r : ReadStreamToEnd) (buf : RVec) (m : Nat) :
    ∃ rd io, r.resume (some (.Read (.ok ⟨buf, m + 1⟩))) =
      (⟨rd, r.buffer ++ buf.data.take (m + 1)⟩, .Io io) := by
  simp only [ReadStreamToEnd.resume, ReadStreamToEnd.resumeGo,
    ReadStream.resume_ok_succ_eq, StreamOutput.bytes, ReadStream.resume_none_eq,
    Option.getD_some]
  exact ⟨_, _, rfl⟩

theorem readToEnd_resume_ok_zero (r : ReadStreamToEnd) (buf : RVec) :
    r.resume (some (.Read (.ok ⟨buf, 0⟩))) = (⟨r.read, []⟩, .Ok r.buffer) := by
  simp only [ReadStreamToEnd.resume, ReadStreamToEnd.resumeGo,
    ReadStream.resume_ok_zero_eq, Option.getD_some]

theorem readToEnd_driveResponses (resps : List StreamOutput) :
    ∀ (read : ReadStream) (acc : List Nat), resps ≠ [] →
      (∀ o ∈ resps.dropLast, 0 < o.bytes_count) →
      (∀ o, resps.getLast? = some o → o.bytes_count = 0) →
      ReadStreamToEnd.driveResponses ⟨read, acc⟩ resps =
        .Ok (acc ++ (resps.map (fun o => o.buffer.data.take o.bytes_count)).flatten) := by
  induction resps with
  | nil => exact fun read acc hne _ _ => absurd rfl hne
  | cons o rest ih =>
    intro read acc _ hbody hlast
    cases rest with
    | nil =>
      obtain ⟨buf, n⟩ := o
      have h0 : n = 0 := by simpa using hlast ⟨buf, n⟩ (by simp)
      subst h0
      rw [ReadStreamToEnd.driveResponses, readToEnd_resume_ok_zero]
      simp
    | cons o2 rest2 =>
      obtain ⟨buf, n⟩ := o
      have hpos : 0 < n := by simpa using hbody ⟨buf, n⟩ (by simp)
      obtain ⟨m, rfl⟩ : ∃ m, n = m + 1 := ⟨n - 1, by omega⟩
      obtain ⟨rd, io, hres⟩ := readToEnd_resume_ok_succ ⟨read, acc⟩ buf m
      rw [ReadStreamToEnd.driveResponses, hres]
      dsimp only
      rw [ih rd (acc ++ buf.data.take (m + 1)) (by simp)
        (fun o3 ho3 => hbody o3 (List.mem_cons_of_mem _ ho3))
        (fun o3 ho3 => hlast o3 (by rw [List.getLast?_cons_cons]; exact ho3))]
      simp

/-- C8: seeding `ReadStreamToEnd` via `extend` and driving it with
completed read responses — every response before the last carrying
bytes, the last carrying zero — terminates `Ok` exactly at the inner
`Eof`, with payload the seed followed by each response's first
`bytes_count` bytes in order, nothing duplicated or dropped; a
write-shaped response is returned as a wrapped inner error and a
pending read request is re-emitted as a suspension. -/
theorem readToEnd_drive_ok (c : Nat) (seed : List Nat) (resps : List StreamOutput)
    (hne : resps ≠ [])
    (hbody : ∀ o ∈ resps.dropLast, 0 < o.bytes_count)
    (hwf : ∀ o ∈ resps, o.bytes_count ≤ o.buffer.data.length)
    (hlast : ∀ o, resps.getLast? = some o → o.bytes_count = 0) :
    ReadStreamToEnd.driveToEnd ((ReadStreamToEnd.with_capacity c).extend seed) resps =
      .Ok (seed ++ (resps.map (fun o => o.buffer.data.take o.bytes_count)).flatten) ∧
    (∀ (r : ReadStreamToEnd) (wio : Except RVec StreamOutput),
      (r.resume (some (.Write wio))).2 =
        .Err (.Read (.InvalidArgument ("read output") (.Write wio)))) ∧
    (∀ (r : ReadStreamToEnd) (buf : RVec),
      (r.resume (some (.Read (.error buf)))).2 = .Io (.Read (.error buf))) := by
  refine ⟨?_, ?_, ?_⟩
  · rw [ReadStreamToEnd.driveToEnd]
    rw [show ((ReadStreamToEnd.with_capacity c).extend seed).resume none =
      (⟨⟨RVec.zeroed c⟩, seed⟩, .Io (.Read (.error (RVec.zeroed c)))) from rfl]
    exact readToEnd_driveResponses resps ⟨RVec.zeroed c⟩ seed hne hbody hlast
  · intro r wio
    simp only [ReadStreamToEnd.resume, ReadStreamToEnd.resumeGo,
      ReadStream.resume_write_eq, Option.getD_some]
  · intro r buf
    simp only [ReadStreamToEnd.resume, ReadStreamToEnd.resumeGo,
      ReadStream.resume_req_eq, Option.getD_some]

/-- C8 witness: seed `[1]`, two data responses and a zero-count
response yield `Ok [1, 2, 3, 4]`. -/
theorem readToEnd_drive_ok_witness :
    ReadStreamToEnd.driveToEnd ((ReadStreamToEnd.with_capacity 4).extend [1])
        [⟨⟨[2, 3], 2⟩, 2⟩, ⟨⟨[4, 9], 2⟩, 1⟩, ⟨⟨[0, 0], 2⟩, 0⟩] = .Ok [1, 2, 3, 4] := by
  have h := (readToEnd_drive_ok 4 [1]
    [⟨⟨[2, 3], 2⟩, 2⟩, ⟨⟨[4, 9], 2⟩, 1⟩, ⟨⟨[0, 0], 2⟩, 0⟩]
    (by decide) (by decide) (by decide)
    (by intro o ho; simp at ho; subst ho; rfl)).1
  exact h.trans (by rfl)
